import Mathlib

/-!
Verification of the watch-folder ingestion and scheduling subsystem of
`python/processors/watch_folder.py` (Suno Studio Pro watch folder processor).

The Python code is shallowly embedded: the thread-safe priority queue
(`ProcessingQueue`), the filesystem event handler (`WatchFolderHandler`),
the orchestrator level operations (`enqueue_file`, `process_file`,
`_worker_loop`, `get_stats`) become pure Lean functions over explicit
state records.  External, I/O-dependent collaborators
(`validate_audio_file` from `utils/file_manager.py`, and the
load/analyze/backup/master/save pipeline inside the try-block of
`process_file`) are passed in as oracle parameters: their outcomes are
inputs, their internals are not under test.  Exceptions raised by the
pipeline are modelled with `Except`, matching the single
`except Exception` boundary of `process_file`.  Wall-clock timestamps
are `Int` seconds; processing durations are rationals.
-/

namespace WatchFolder

/-- The task dictionary built by `WatchFolderProcessor.enqueue_file`:
`{'file_path': ..., 'priority': ..., 'enqueued_time': ..., 'status': 'queued'}`. -/
structure Task where
  file_path : String
  priority : String
  enqueued_time : Int
  status : String
deriving DecidableEq, Repr

/-- A stored queue element: the `(priority, task_id, item)` triple that
`ProcessingQueue.enqueue` puts into the underlying heap. -/
abbrev Entry := Nat × Nat × Task

/-- Lexicographic comparison of the `(priority, task_id)` prefix of two
heap entries.  Python compares the full tuples, but since `task_id` is
unique among live entries the third component is never reached, so this
captures the heap order exactly. -/
def entryLe (a b : Entry) : Bool :=
  Nat.blt a.1 b.1 || (Nat.beq a.1 b.1 && Nat.ble a.2.1 b.2.1)

/-- State of `ProcessingQueue`: the multiset of stored entries (kept in
insertion order; only the minimum is observable through `dequeue`) and
the `task_id` counter, initially `0`. -/
structure ProcessingQueue where
  entries : List Entry
  task_id : Nat
deriving DecidableEq, Repr

/-- A fresh `ProcessingQueue()`. -/
def emptyQueue : ProcessingQueue := ⟨[], 0⟩

/-- `ProcessingQueue.enqueue`: increment `task_id` under the lock and put
`(priority, task_id, item)` into the heap. -/
def ProcessingQueue.enqueue (q : ProcessingQueue) (item : Task) (priority : Nat) :
    ProcessingQueue :=
  { entries := q.entries ++ [(priority, q.task_id + 1, item)]
    task_id := q.task_id + 1 }

/-- `ProcessingQueue.size`: `qsize()` of the underlying queue. -/
def ProcessingQueue.size (q : ProcessingQueue) : Nat := q.entries.length

/-- Extraction of the heap minimum: returns the entry with the
lexicographically smallest `(priority, task_id)` (the first such entry
on ties) together with the remaining entries. -/
def selectMin : List Entry → Option (Entry × List Entry)
  | [] => none
  | e :: es =>
    match selectMin es with
    | none => some (e, [])
    | some (m, rest) =>
      if entryLe e m then some (e, es) else some (m, e :: rest)

/-- `ProcessingQueue.dequeue`: `get_nowait()` on the heap — returns the
item of the minimal entry, or `none` immediately when the queue is empty
(the Python method catches `queue.Empty` and returns `None`; it takes no
timeout and never blocks). -/
def ProcessingQueue.dequeue (q : ProcessingQueue) : Option Task × ProcessingQueue :=
  match selectMin q.entries with
  | none => (none, q)
  | some (m, rest) => (some m.2.2, { entries := rest, task_id := q.task_id })

/-- Entries in the order repeated `dequeue` returns them, with fuel
bounding the number of iterations (fuel `entries.length` drains fully). -/
def drainAux : Nat → List Entry → List Entry
  | 0, _ => []
  | n + 1, l =>
    match selectMin l with
    | none => []
    | some (m, rest) => m :: drainAux n rest

/-- The full dequeue order of a queue: entries returned by repeatedly
calling `dequeue` until it yields `none`. -/
def drainEntries (l : List Entry) : List Entry := drainAux l.length l

/-- The tasks, in the order repeated `dequeue` returns them. -/
def drainTasks (q : ProcessingQueue) : List Task :=
  (drainEntries q.entries).map (fun e => e.2.2)

/-- Python's `str.lower()` on the character content of a string (a
structurally recursive equivalent of `String.toLower`, so that concrete
instances evaluate inside the kernel). -/
def strLower (s : String) : String := String.mk (s.data.map Char.toLower)

/-- The numeric priority computed by `enqueue_file`:
`{'high': 0, 'medium': 1, 'low': 2}.get(priority.lower(), 1)`. -/
def priorityValue (priority : String) : Nat :=
  let p := strLower priority
  if p = "high" then 0 else if p = "medium" then 1 else if p = "low" then 2 else 1

/-- The slice of `WatchFolderProcessor` state that `enqueue_file` touches:
the queue and the `max_queue_size` configuration entry. -/
structure Processor where
  queue : ProcessingQueue
  max_queue_size : Nat
deriving DecidableEq, Repr

/-- `WatchFolderProcessor.enqueue_file`: map the priority string, reject
with `False` when `queue.size() >= max_queue_size`, otherwise enqueue the
task dictionary and return `True`. -/
def Processor.enqueue_file (p : Processor) (file_path : String) (priority : String)
    (now : Int) : Bool × Processor :=
  let priority_value := priorityValue priority
  if p.queue.size ≥ p.max_queue_size then
    (false, p)
  else
    (true, { p with queue :=
        p.queue.enqueue ⟨file_path, priority, now, "queued"⟩ priority_value })

/-- A sequence of `ProcessingQueue.enqueue` calls with priorities obtained
from priority strings via `priorityValue` (as `enqueue_file` does). -/
def enqueueSeq (q : ProcessingQueue) : List (Task × String) → ProcessingQueue
  | [] => q
  | (t, pr) :: rest => enqueueSeq (q.enqueue t (priorityValue pr)) rest

/-- The entries a sequence of enqueues creates when the counter starts at
`n`: the k-th request receives sequence number `n + k` (1-based). -/
def tagFrom (n : Nat) : List (Task × String) → List Entry
  | [] => []
  | (t, pr) :: rest => (priorityValue pr, n + 1, t) :: tagFrom (n + 1) rest

/-- The entries created from a fresh queue: sequence numbers `1, 2, ...`
in enqueue order. -/
def tagSeq (xs : List (Task × String)) : List Entry := tagFrom 0 xs

/-- The final component of a path (the characters after the last slash),
as in `pathlib.Path(p).name` for a file path. -/
def pathName (p : String) : String :=
  String.mk ((p.data.reverse.takeWhile (fun c => !(c == '/'))).reverse)

/-- Index of the last dot in a character list, if any. -/
def lastDotIdx (cs : List Char) : Option Nat :=
  match cs.reverse.findIdx? (fun c => c == '.') with
  | none => none
  | some j => some (cs.length - 1 - j)

/-- `pathlib.Path(p).suffix`: the extension of the final component —
`name[i:]` for the last dot index `i` when `0 < i < len(name) - 1`,
otherwise the empty string. -/
def pathSuffix (p : String) : String :=
  let name := (pathName p).toList
  match lastDotIdx name with
  | none => ""
  | some i => if 0 < i ∧ i + 1 < name.length then String.mk (name.drop i) else ""

/-- The extension whitelist in `WatchFolderHandler._should_process`. -/
def supported_exts : List String := [".mp3", ".wav", ".flac", ".aiff", ".m4a", ".ogg"]

/-- State of `WatchFolderHandler`: the session-wide `processed_files` set
and the `last_processed` path-to-timestamp dictionary (association list;
lookups take the first binding, so prepending models assignment). -/
structure Handler where
  processed_files : List String
  last_processed : List (String × Int)
deriving DecidableEq, Repr

/-- A fresh handler with no processed files. -/
def emptyHandler : Handler := ⟨[], []⟩

/-- `self.last_processed.get(str(file_path), 0)`. -/
def Handler.lastProcessedAt (h : Handler) (path : String) : Int :=
  match h.last_processed.find? (fun kv => kv.1 == path) with
  | some kv => kv.2
  | none => 0

/-- `WatchFolderHandler._should_process`: reject paths already in the
session `processed_files` set, then unsupported extensions, then paths
the external `validate_audio_file` collaborator (oracle `validate`)
reports invalid. -/
def Handler.should_process (h : Handler) (validate : String → Bool × String)
    (file_path : String) : Bool :=
  if h.processed_files.contains file_path then false
  else if !(supported_exts.contains (strLower (pathSuffix file_path))) then false
  else if !(validate file_path).1 then false
  else true

/-- `WatchFolderHandler.mark_processed`: add the path to the
`processed_files` set and record `last_processed[path] = now`. -/
def Handler.mark_processed (h : Handler) (path : String) (now : Int) : Handler :=
  { processed_files :=
      if h.processed_files.contains path then h.processed_files
      else path :: h.processed_files
    last_processed := (path, now) :: h.last_processed }

/-- The handler together with the processor it enqueues into. -/
structure WatchSystem where
  handler : Handler
  proc : Processor
deriving DecidableEq, Repr

/-- `WatchFolderHandler.on_created` for a non-directory event: when
`_should_process` passes, enqueue at priority `'high'` (the returned
acceptance flag is ignored, as in the source). -/
def on_created (validate : String → Bool × String) (now : Int) (s : WatchSystem)
    (path : String) : WatchSystem :=
  if s.handler.should_process validate path then
    { s with proc := (s.proc.enqueue_file path "high" now).2 }
  else s

/-- `WatchFolderHandler.on_modified` for a non-directory event: when
`_should_process` passes and `now - last_processed.get(path, 0) > 60`
(the 60-second cooldown), enqueue at priority `'medium'`. -/
def on_modified (validate : String → Bool × String) (now : Int) (s : WatchSystem)
    (path : String) : WatchSystem :=
  if s.handler.should_process validate path then
    if now - s.handler.lastProcessedAt path > 60 then
      { s with proc := (s.proc.enqueue_file path "medium" now).2 }
    else s
  else s

/-- The result dictionary built by `WatchFolderProcessor.process_file`
(the fields the claims are about; `original_deleted` models the
`'original_deleted'` key, set only after a successful auto-delete and
absent — here `false` — otherwise). -/
structure PResult where
  file_path : String
  success : Bool
  errors : List String
  processing_time : ℚ
  output_path : Option String
  original_deleted : Bool
deriving DecidableEq, Repr

/-- The try-block of `process_file`, threading the mutated result dict,
in source order: a `validate_audio_file` failure returns early
(normally) with the error appended; the
analyze/settings/backup/load/process/save pipeline (oracle `pipeline`)
either returns the written output path or raises; on pipeline success
the code sets `success = True` and `output_path`, then marks the path
processed in every handler (reported by the returned flag), and only
then — when the `auto_delete_original` config is set — calls
`file_path.unlink()` (oracle `unlink`), which may itself raise AFTER
`success` is already `True`.  The `Option String` component is the
exception, if any, escaping to the `except` clause, alongside the
result dict as mutated so far. -/
def process_file_try (validate : String → Bool × String)
    (pipeline : String → Except String String)
    (unlink : String → Except String Unit) (auto_delete_original : Bool)
    (base : PResult) (file_path : String) : PResult × Option String × Bool :=
  match validate file_path with
  | (false, err) =>
    ({ base with errors := base.errors ++ ["Validation failed: " ++ err] }, none, false)
  | (true, _) =>
    match pipeline file_path with
    | .error e => (base, some e, false)
    | .ok out =>
      let r := { base with success := true, output_path := some out }
      if auto_delete_original then
        match unlink file_path with
        | .error e => (r, some e, true)
        | .ok _ => ({ r with original_deleted := true }, none, true)
      else (r, none, true)

/-- `WatchFolderProcessor.process_file`: initialize the result with
`success=False` and empty `errors`, run the try-block, let the
`except Exception` branch append the message of any escaping exception
to the result as mutated so far (in particular `success` stays `True`
when the exception came from the post-success auto-delete unlink), and
set `processing_time` in the `finally` block (`dur` gives the elapsed
wall-clock duration). -/
def process_file (validate : String → Bool × String)
    (pipeline : String → Except String String)
    (unlink : String → Except String Unit) (auto_delete_original : Bool)
    (dur : String → ℚ) (task : Task) : PResult :=
  let base : PResult :=
    { file_path := task.file_path, success := false, errors := []
      processing_time := 0, output_path := none, original_deleted := false }
  let res := process_file_try validate pipeline unlink auto_delete_original
      base task.file_path
  let r :=
    match res.2.1 with
    | none => res.1
    | some e => { res.1 with errors := res.1.errors ++ [e] }
  { r with processing_time := dur task.file_path }

/-- `process_file` together with its handler side effect: on the
pipeline-success path (before the auto-delete attempt) every handler
marks the path processed at the current time — so the marking happens
even when the subsequent unlink raises, and never when validation or
the pipeline failed. -/
def process_and_mark (validate : String → Bool × String)
    (pipeline : String → Except String String)
    (unlink : String → Except String Unit) (auto_delete_original : Bool)
    (dur : String → ℚ) (h : Handler) (now : Int) (task : Task) :
    PResult × Handler :=
  (process_file validate pipeline unlink auto_delete_original dur task,
   if (process_file_try validate pipeline unlink auto_delete_original
        ⟨task.file_path, false, [], 0, none, false⟩ task.file_path).2.2
   then h.mark_processed task.file_path now else h)

/-- The statistics counters of `WatchFolderProcessor.stats` that the
worker loop updates. -/
structure Stats where
  processed_files : Nat
  failed_files : Nat
  total_processing_time : ℚ
deriving DecidableEq, Repr

/-- The initial statistics. -/
def zeroStats : Stats := ⟨0, 0, 0⟩

/-- The statistics update block of `_worker_loop`: `processed_files` and
`total_processing_time` always grow; `failed_files` grows exactly when
the result was unsuccessful. -/
def update_stats (st : Stats) (r : PResult) : Stats :=
  { processed_files := st.processed_files + 1
    total_processing_time := st.total_processing_time + r.processing_time
    failed_files := if !r.success then st.failed_files + 1 else st.failed_files }

/-- A finite run of `_worker_loop`: repeatedly dequeue, process, and
update statistics, stopping when the queue is empty (where the real loop
would sleep and poll again) or when the fuel — a bound on loop
iterations — runs out.  No task is ever re-enqueued: the loop body only
dequeues. -/
def worker_runAux (validate : String → Bool × String)
    (pipeline : String → Except String String)
    (unlink : String → Except String Unit) (auto_delete : Bool)
    (dur : String → ℚ) :
    Nat → ProcessingQueue → Stats → List PResult × Stats × ProcessingQueue
  | 0, q, st => ([], st, q)
  | n + 1, q, st =>
    match q.dequeue with
    | (none, q1) => ([], st, q1)
    | (some t, q1) =>
      let r := process_file validate pipeline unlink auto_delete dur t
      let st1 := update_stats st r
      let res := worker_runAux validate pipeline unlink auto_delete dur n q1 st1
      (r :: res.1, res.2)

/-- A worker run that drains the whole queue (fuel = queue size). -/
def worker_run (validate : String → Bool × String)
    (pipeline : String → Except String String)
    (unlink : String → Except String Unit) (auto_delete : Bool)
    (dur : String → ℚ)
    (q : ProcessingQueue) (st : Stats) : List PResult × Stats × ProcessingQueue :=
  worker_runAux validate pipeline unlink auto_delete dur q.entries.length q st

/-- What one iteration of `_worker_loop` does. -/
inductive IterOutcome where
  /-- `task is None`: the worker executes `time.sleep(0.5)` and retries
  (a polling loop; the dequeue itself returned immediately). -/
  | slept : IterOutcome
  /-- A task was dequeued and processed to this result. -/
  | processed (r : PResult) : IterOutcome
deriving DecidableEq, Repr

/-- A single iteration of `_worker_loop`. -/
def worker_iteration (validate : String → Bool × String)
    (pipeline : String → Except String String)
    (unlink : String → Except String Unit) (auto_delete : Bool)
    (dur : String → ℚ)
    (q : ProcessingQueue) (st : Stats) : IterOutcome × Stats × ProcessingQueue :=
  match q.dequeue with
  | (none, q1) => (.slept, st, q1)
  | (some t, q1) =>
    let r := process_file validate pipeline unlink auto_delete dur t
    (.processed r, update_stats st r, q1)

/-- The `avg_processing_time` field computed by
`WatchFolderProcessor.get_stats`: `total / processed` when any task has
completed, `0` otherwise. -/
def avg_processing_time (st : Stats) : ℚ :=
  if st.processed_files > 0 then st.total_processing_time / st.processed_files else 0

/-- A `validate_audio_file` oracle that accepts every path (used to
instantiate scenarios where the file in question is valid). -/
def validateOK : String → Bool × String := fun _ => (true, "")

/-- A processing-pipeline oracle that always raises: the file vanished
between dequeue and processing (librosa.load raises). -/
def pipelineRaisesIO : String → Except String String :=
  fun _ => .error "file disappeared"

/-- A wall-clock duration oracle: every task takes two seconds. -/
def durTwo : String → ℚ := fun _ => 2

/-- A processing-pipeline oracle that succeeds, returning the written
output path. -/
def pipelineOk : String → Except String String :=
  fun p => .ok ("processed_" ++ p)

/-- An unlink oracle whose auto-delete always raises. -/
def unlinkRaises : String → Except String Unit := fun _ => .error "unlink failed"

/-- An unlink oracle whose auto-delete always succeeds. -/
def unlinkOK : String → Except String Unit := fun _ => .ok ()

/-- Strict lexicographic order on the `(priority, task_id)` key of heap
entries; used to state uniqueness of the sorted dequeue order. -/
def entryLtP (a b : Entry) : Prop := a.1 < b.1 ∨ (a.1 = b.1 ∧ a.2.1 < b.2.1)

instance : IsAntisymm Entry entryLtP where
  antisymm a b h₁ h₂ := by
    exfalso
    rcases h₁ with h | ⟨h, h'⟩ <;> rcases h₂ with g | ⟨g, g'⟩ <;> omega

theorem entryLe_iff {a b : Entry} :
    entryLe a b = true ↔ (a.1 < b.1 ∨ (a.1 = b.1 ∧ a.2.1 ≤ b.2.1)) := by
  simp [entryLe, Nat.blt_eq, Nat.ble_eq]

theorem entryLe_refl (a : Entry) : entryLe a a = true := by
  rw [entryLe_iff]; omega

theorem entryLe_trans (a b c : Entry) (h₁ : entryLe a b = true)
    (h₂ : entryLe b c = true) : entryLe a c = true := by
  rw [entryLe_iff] at h₁ h₂ ⊢; omega

theorem entryLe_total (a b : Entry) : (entryLe a b || entryLe b a) = true := by
  rcases Bool.eq_false_or_eq_true (entryLe a b) with h | h
  · simp [h]
  · have h' : ¬(a.1 < b.1 ∨ (a.1 = b.1 ∧ a.2.1 ≤ b.2.1)) := by
      rw [← entryLe_iff]; simp [h]
    have hba : entryLe b a = true := by rw [entryLe_iff]; omega
    simp [hba]


theorem selectMin_cons_ne_none (e : Entry) (es : List Entry) :
    selectMin (e :: es) ≠ none := by
  simp only [selectMin]
  split
  · simp
  · split <;> simp

theorem selectMin_eq_none {l : List Entry} : selectMin l = none ↔ l = [] := by
  cases l with
  | nil => simp [selectMin]
  | cons e es => simp [selectMin_cons_ne_none]

theorem selectMin_length {l : List Entry} {m : Entry} {rest : List Entry}
    (h : selectMin l = some (m, rest)) : rest.length + 1 = l.length := by
  induction l generalizing m rest with
  | nil => simp [selectMin] at h
  | cons e es ih =>
    simp only [selectMin] at h
    split at h
    · next hes =>
      have : es = [] := selectMin_eq_none.mp hes
      subst this
      simp only [Option.some.injEq, Prod.mk.injEq] at h
      obtain ⟨rfl, rfl⟩ := h
      simp
    · next m1 rest1 hes =>
      split at h
      · simp only [Option.some.injEq, Prod.mk.injEq] at h
        obtain ⟨rfl, rfl⟩ := h
        simp
      · simp only [Option.some.injEq, Prod.mk.injEq] at h
        obtain ⟨rfl, rfl⟩ := h
        have := ih hes
        simp only [List.length_cons] at this ⊢
        omega

theorem selectMin_perm {l : List Entry} {m : Entry} {rest : List Entry}
    (h : selectMin l = some (m, rest)) : l.Perm (m :: rest) := by
  induction l generalizing m rest with
  | nil => simp [selectMin] at h
  | cons e es ih =>
    simp only [selectMin] at h
    split at h
    · next hes =>
      have : es = [] := selectMin_eq_none.mp hes
      subst this
      simp only [Option.some.injEq, Prod.mk.injEq] at h
      obtain ⟨rfl, rfl⟩ := h
      exact List.Perm.refl _
    · next m1 rest1 hes =>
      split at h
      · simp only [Option.some.injEq, Prod.mk.injEq] at h
        obtain ⟨rfl, rfl⟩ := h
        exact List.Perm.refl _
      · simp only [Option.some.injEq, Prod.mk.injEq] at h
        obtain ⟨rfl, rfl⟩ := h
        exact ((ih hes).cons e).trans (List.Perm.swap m1 e rest1)

theorem selectMin_min {l : List Entry} {m : Entry} {rest : List Entry}
    (h : selectMin l = some (m, rest)) : ∀ x ∈ l, entryLe m x = true := by
  induction l generalizing m rest with
  | nil => simp [selectMin] at h
  | cons e es ih =>
    simp only [selectMin] at h
    split at h
    · next hes =>
      have : es = [] := selectMin_eq_none.mp hes
      subst this
      simp only [Option.some.injEq, Prod.mk.injEq] at h
      obtain ⟨rfl, rfl⟩ := h
      intro x hx
      simp at hx
      subst hx
      exact entryLe_refl _
    · next m1 rest1 hes =>
      split at h
      · next hle =>
        simp only [Option.some.injEq, Prod.mk.injEq] at h
        obtain ⟨rfl, rfl⟩ := h
        intro x hx
        rcases List.mem_cons.mp hx with rfl | hx
        · exact entryLe_refl x
        · exact entryLe_trans _ _ _ hle (ih hes x hx)
      · next hle =>
        simp only [Option.some.injEq, Prod.mk.injEq] at h
        obtain ⟨rfl, rfl⟩ := h
        intro x hx
        rcases List.mem_cons.mp hx with rfl | hx
        · have htot := entryLe_total x m1
          simp only [Bool.or_eq_true] at htot
          rcases htot with hxm | hmx
          · exact absurd hxm hle
          · exact hmx
        · exact ih hes x hx

theorem drainAux_perm : ∀ (n : Nat) (l : List Entry), l.length ≤ n →
    (drainAux n l).Perm l := by
  intro n
  induction n with
  | zero =>
    intro l h
    have : l = [] := List.eq_nil_of_length_eq_zero (Nat.le_zero.mp h)
    subst this
    simp [drainAux]
  | succ n ih =>
    intro l h
    cases hl : selectMin l with
    | none =>
      have : l = [] := selectMin_eq_none.mp hl
      subst this
      simp [drainAux, selectMin]
    | some p =>
      obtain ⟨m, rest⟩ := p
      simp only [drainAux, hl]
      have hlen := selectMin_length hl
      have hrest : rest.length ≤ n := by omega
      exact ((ih rest hrest).cons m).trans (selectMin_perm hl).symm

theorem drainAux_sorted : ∀ (n : Nat) (l : List Entry), l.length ≤ n →
    (drainAux n l).Pairwise (fun a b => entryLe a b = true) := by
  intro n
  induction n with
  | zero => intro l _; simp [drainAux]
  | succ n ih =>
    intro l h
    cases hl : selectMin l with
    | none => simp [drainAux, hl]
    | some p =>
      obtain ⟨m, rest⟩ := p
      simp only [drainAux, hl]
      have hlen := selectMin_length hl
      have hrest : rest.length ≤ n := by omega
      refine List.pairwise_cons.mpr ⟨?_, ih rest hrest⟩
      intro x hx
      have hx₁ : x ∈ rest := (drainAux_perm n rest hrest).mem_iff.mp hx
      have hx₂ : x ∈ l := (selectMin_perm hl).mem_iff.mpr (List.mem_cons_of_mem _ hx₁)
      exact selectMin_min hl x hx₂

theorem drainEntries_perm (l : List Entry) : (drainEntries l).Perm l :=
  drainAux_perm l.length l le_rfl

theorem drainEntries_sorted (l : List Entry) :
    (drainEntries l).Pairwise (fun a b => entryLe a b = true) :=
  drainAux_sorted l.length l le_rfl

theorem sorted_unique_of_distinct_ids {l₁ l₂ : List Entry}
    (hperm : l₁.Perm l₂)
    (hs₁ : l₁.Pairwise (fun a b => entryLe a b = true))
    (hs₂ : l₂.Pairwise (fun a b => entryLe a b = true))
    (hnd : l₁.Pairwise (fun a b => a.2.1 ≠ b.2.1)) : l₁ = l₂ := by
  have hnd₂ : l₂.Pairwise (fun a b => a.2.1 ≠ b.2.1) :=
    (hperm.pairwise_iff (fun h => Ne.symm h)).mp hnd
  have conv : ∀ {a b : Entry}, (entryLe a b = true ∧ a.2.1 ≠ b.2.1) → entryLtP a b := by
    intro a b ⟨hle, hne⟩
    rw [entryLe_iff] at hle
    rcases hle with h | ⟨h, h'⟩
    · exact Or.inl h
    · exact Or.inr ⟨h, lt_of_le_of_ne h' hne⟩
  have hlt₁ : l₁.Sorted entryLtP := (hs₁.and hnd).imp conv
  have hlt₂ : l₂.Sorted entryLtP := (hs₂.and hnd₂).imp conv
  exact List.eq_of_perm_of_sorted hperm hlt₁ hlt₂

theorem tagFrom_mem_id : ∀ (xs : List (Task × String)) (n : Nat) (e : Entry),
    e ∈ tagFrom n xs → n < e.2.1 := by
  intro xs
  induction xs with
  | nil => intro n e h; simp [tagFrom] at h
  | cons x rest ih =>
    intro n e h
    obtain ⟨t, pr⟩ := x
    simp only [tagFrom, List.mem_cons] at h
    rcases h with rfl | h
    · simp
    · have := ih (n + 1) e h
      omega

theorem tagFrom_id_increasing : ∀ (xs : List (Task × String)) (n : Nat),
    (tagFrom n xs).Pairwise (fun a b => a.2.1 < b.2.1) := by
  intro xs
  induction xs with
  | nil => intro n; simp [tagFrom]
  | cons x rest ih =>
    intro n
    obtain ⟨t, pr⟩ := x
    simp only [tagFrom]
    refine List.pairwise_cons.mpr ⟨?_, ih (n + 1)⟩
    intro e he
    have := tagFrom_mem_id rest (n + 1) e he
    simp
    omega

theorem enqueueSeq_entries : ∀ (xs : List (Task × String)) (q : ProcessingQueue),
    (enqueueSeq q xs).entries = q.entries ++ tagFrom q.task_id xs := by
  intro xs
  induction xs with
  | nil => intro q; simp [enqueueSeq, tagFrom]
  | cons x rest ih =>
    intro q
    obtain ⟨t, pr⟩ := x
    simp only [enqueueSeq, tagFrom]
    rw [ih]
    simp [ProcessingQueue.enqueue]

theorem drainEntries_eq_mergeSort {l : List Entry}
    (hnd : l.Pairwise (fun a b => a.2.1 ≠ b.2.1)) :
    drainEntries l = l.mergeSort entryLe := by
  refine sorted_unique_of_distinct_ids
    ((drainEntries_perm l).trans (List.mergeSort_perm l entryLe).symm)
    (drainEntries_sorted l)
    (List.sorted_mergeSort entryLe_trans entryLe_total l) ?_
  exact ((drainEntries_perm l).pairwise_iff (fun h => Ne.symm h)).mpr hnd

/-- C1: enqueueing any sequence of tasks with priority strings into a
fresh `ProcessingQueue` (as `enqueue_file` does) assigns the numeric
priorities high=0 / medium=1 / low=2 via `priorityValue`, gives the
requests the strictly increasing sequence numbers `1, 2, ...`, and the
order in which `dequeue` then returns the tasks equals the stable sort
(`List.mergeSort`) of the enqueued entries by the lexicographic key
`(priority, sequenceNumber)` — smaller sequence number winning ties
within a priority level. -/
theorem dequeue_order_eq_stable_sort (xs : List (Task × String)) :
    (enqueueSeq emptyQueue xs).entries = tagSeq xs
    ∧ (tagSeq xs).Pairwise (fun a b => a.2.1 < b.2.1)
    ∧ drainTasks (enqueueSeq emptyQueue xs)
        = ((tagSeq xs).mergeSort entryLe).map (fun e => e.2.2) := by
  have h₁ : (enqueueSeq emptyQueue xs).entries = tagSeq xs := by
    rw [enqueueSeq_entries]
    simp [emptyQueue, tagSeq]
  refine ⟨h₁, tagFrom_id_increasing xs 0, ?_⟩
  have hnd : (tagSeq xs).Pairwise (fun a b => a.2.1 ≠ b.2.1) :=
    (tagFrom_id_increasing xs 0).imp (fun h => Nat.ne_of_lt h)
  rw [drainTasks, h₁, drainEntries_eq_mergeSort hnd]

theorem dequeue_of_selectMin_none {q : ProcessingQueue}
    (h : selectMin q.entries = none) : q.dequeue = (none, q) := by
  simp [ProcessingQueue.dequeue, h]

theorem dequeue_of_selectMin_some {q : ProcessingQueue} {m : Entry} {rest : List Entry}
    (h : selectMin q.entries = some (m, rest)) :
    q.dequeue = (some m.2.2, ⟨rest, q.task_id⟩) := by
  simp [ProcessingQueue.dequeue, h]

theorem process_file_spec (validate : String → Bool × String)
    (pipeline : String → Except String String)
    (unlink : String → Except String Unit) (auto_delete : Bool)
    (dur : String → ℚ) (t : Task) :
    (process_file validate pipeline unlink auto_delete dur t).file_path = t.file_path
    ∧ ((process_file validate pipeline unlink auto_delete dur t).success = false →
        (process_file validate pipeline unlink auto_delete dur t).errors ≠ [])
    ∧ (∀ msg, pipeline t.file_path = .error msg → (validate t.file_path).1 = true →
        (process_file validate pipeline unlink auto_delete dur t).success = false
        ∧ (process_file validate pipeline unlink auto_delete dur t).errors = [msg])
    ∧ (∀ out msg, (validate t.file_path).1 = true → pipeline t.file_path = .ok out →
        auto_delete = true → unlink t.file_path = .error msg →
        (process_file validate pipeline unlink auto_delete dur t).success = true
        ∧ (process_file validate pipeline unlink auto_delete dur t).errors = [msg])
    ∧ (process_file validate pipeline unlink auto_delete dur t).processing_time
        = dur t.file_path := by
  rcases hv : validate t.file_path with ⟨b, err⟩
  cases b
  · simp [process_file, process_file_try, hv]
  · cases hp : pipeline t.file_path with
    | error e => simp [process_file, process_file_try, hv, hp]
    | ok out =>
      cases auto_delete
      · simp [process_file, process_file_try, hv, hp]
      · cases hu : unlink t.file_path with
        | error e => simp [process_file, process_file_try, hv, hp, hu]
        | ok u => simp [process_file, process_file_try, hv, hp, hu]

/-- The handler side effect of a `process_file` call happens exactly
when the returned result has `success = true`: marking precedes the
auto-delete attempt, so it survives a failing unlink, and it never
happens on a validation or pipeline failure. -/
theorem process_and_mark_handler (validate : String → Bool × String)
    (pipeline : String → Except String String)
    (unlink : String → Except String Unit) (auto_delete : Bool)
    (dur : String → ℚ) (h : Handler) (now : Int) (t : Task) :
    (process_and_mark validate pipeline unlink auto_delete dur h now t).2
      = if (process_and_mark validate pipeline unlink auto_delete dur h now t).1.success
        then h.mark_processed t.file_path now else h := by
  rcases hv : validate t.file_path with ⟨b, err⟩
  cases b
  · simp [process_and_mark, process_file, process_file_try, hv]
  · cases hp : pipeline t.file_path with
    | error e => simp [process_and_mark, process_file, process_file_try, hv, hp]
    | ok out =>
      cases auto_delete
      · simp [process_and_mark, process_file, process_file_try, hv, hp]
      · cases hu : unlink t.file_path with
        | error e => simp [process_and_mark, process_file, process_file_try, hv, hp, hu]
        | ok u => simp [process_and_mark, process_file, process_file_try, hv, hp, hu]

theorem worker_runAux_spec (validate : String → Bool × String)
    (pipeline : String → Except String String)
    (unlink : String → Except String Unit) (auto_delete : Bool)
    (dur : String → ℚ) :
    ∀ (n : Nat) (q : ProcessingQueue) (st : Stats), q.entries.length ≤ n →
      (worker_runAux validate pipeline unlink auto_delete dur n q st).1.length = q.entries.length
      ∧ (worker_runAux validate pipeline unlink auto_delete dur n q st).2.2.entries = []
      ∧ (∀ r ∈ (worker_runAux validate pipeline unlink auto_delete dur n q st).1,
          ∃ t, r = process_file validate pipeline unlink auto_delete dur t)
      ∧ (worker_runAux validate pipeline unlink auto_delete dur n q st).2.1.processed_files
          = st.processed_files + (worker_runAux validate pipeline unlink auto_delete dur n q st).1.length
      ∧ (worker_runAux validate pipeline unlink auto_delete dur n q st).2.1.failed_files
          = st.failed_files + ((worker_runAux validate pipeline unlink auto_delete dur n q st).1.filter
              (fun r => !r.success)).length
      ∧ (worker_runAux validate pipeline unlink auto_delete dur n q st).2.1.total_processing_time
          = st.total_processing_time
            + ((worker_runAux validate pipeline unlink auto_delete dur n q st).1.map
                (fun r => r.processing_time)).sum := by
  intro n
  induction n with
  | zero =>
    intro q st h
    have hq : q.entries = [] := List.eq_nil_of_length_eq_zero (Nat.le_zero.mp h)
    simp [worker_runAux, hq]
  | succ n ih =>
    intro q st h
    cases hsel : selectMin q.entries with
    | none =>
      have hq : q.entries = [] := selectMin_eq_none.mp hsel
      have hd : q.dequeue = (none, q) := dequeue_of_selectMin_none hsel
      simp [worker_runAux, hd, hq]
    | some p =>
      obtain ⟨m, rest⟩ := p
      have hd := dequeue_of_selectMin_some hsel
      have hlen := selectMin_length hsel
      have hrest : (ProcessingQueue.mk rest q.task_id).entries.length ≤ n := by
        simp only []
        omega
      obtain ⟨ihl, ihq, ihr, ihp, ihf, iht⟩ :=
        ih ⟨rest, q.task_id⟩ (update_stats st (process_file validate pipeline unlink auto_delete dur m.2.2)) hrest
      simp only [worker_runAux, hd]
      refine ⟨?_, ihq, ?_, ?_, ?_, ?_⟩
      · simp only [List.length_cons, ihl]
        omega
      · intro r hr2
        rcases List.mem_cons.mp hr2 with rfl | hr3
        · exact ⟨m.2.2, rfl⟩
        · exact ihr r hr3
      · rw [ihp]
        simp only [update_stats, List.length_cons]
        omega
      · rw [ihf]
        cases hrs : (process_file validate pipeline unlink auto_delete dur m.2.2).success <;>
          simp [update_stats, hrs, List.filter_cons]
        all_goals omega
      · rw [iht]
        simp only [update_stats, List.map_cons, List.sum_cons]
        ring

/-- C2 counterexample: with `auto_delete_original` enabled, a file that
validates and processes successfully but whose post-success
`file_path.unlink()` raises produces a caught exception whose message is
appended while `success` remains `true` — the flag was set before the
in-try auto-delete, so the outcome is not a failed result, and
`failed_files` is not incremented for it — refuting "recorded as a
failed result (success=false with the error message appended)". -/
theorem unlink_error_caught_but_success_kept :
    process_file validateOK pipelineOk unlinkRaises true durTwo
        ⟨"del.mp3", "high", 0, "queued"⟩
      = ⟨"del.mp3", true, ["unlink failed"], 2, some "processed_del.mp3", false⟩
    ∧ (update_stats zeroStats
        (process_file validateOK pipelineOk unlinkRaises true durTwo
          ⟨"del.mp3", "high", 0, "queued"⟩)).failed_files = 0 :=
  ⟨by decide, by decide⟩

/-- C2 amended: every exception raised while processing a task — a
pipeline fault or the post-success auto-delete unlink — is caught at the
per-task boundary inside `process_file` with its message appended to the
result's `errors` list, the worker records exactly one outcome per
dequeued task, and the loop continues to the next iteration (totality of
`worker_run` embeds "no exception from processing propagates out of the
worker loop").  An exception raised before the success flag is set (a
pipeline fault on a validated file, e.g. an I/O failure) yields a failed
result with `success = false` and the message as its recorded error; an
exception from the auto-delete unlink, raised after `success` was
already set, is caught with `success` left `true` — so not every caught
exception produces a failed result. -/
theorem worker_survives_all_faults (validate : String → Bool × String)
    (pipeline : String → Except String String)
    (unlink : String → Except String Unit) (auto_delete : Bool)
    (dur : String → ℚ) (q : ProcessingQueue) (st : Stats) :
    (worker_run validate pipeline unlink auto_delete dur q st).1.length
        = q.entries.length
    ∧ (∀ r ∈ (worker_run validate pipeline unlink auto_delete dur q st).1,
        r.success = false → r.errors ≠ [])
    ∧ (∀ r ∈ (worker_run validate pipeline unlink auto_delete dur q st).1, ∀ msg,
        pipeline r.file_path = .error msg → (validate r.file_path).1 = true →
        r.success = false ∧ r.errors = [msg])
    ∧ (∀ r ∈ (worker_run validate pipeline unlink auto_delete dur q st).1,
        ∀ out msg, (validate r.file_path).1 = true →
        pipeline r.file_path = .ok out → auto_delete = true →
        unlink r.file_path = .error msg →
        r.success = true ∧ r.errors = [msg]) := by
  obtain ⟨hl, _, hr, _, _, _⟩ :=
    worker_runAux_spec validate pipeline unlink auto_delete dur
      q.entries.length q st le_rfl
  refine ⟨hl, ?_, ?_, ?_⟩
  · intro r hmem hfail
    obtain ⟨t, rfl⟩ := hr r hmem
    exact (process_file_spec validate pipeline unlink auto_delete dur t).2.1 hfail
  · intro r hmem msg hp hv
    obtain ⟨t, rfl⟩ := hr r hmem
    have hfp := (process_file_spec validate pipeline unlink auto_delete dur t).1
    rw [hfp] at hp hv
    exact (process_file_spec validate pipeline unlink auto_delete dur t).2.2.1 msg hp hv
  · intro r hmem out msg hv hp had hu
    obtain ⟨t, rfl⟩ := hr r hmem
    have hfp := (process_file_spec validate pipeline unlink auto_delete dur t).1
    rw [hfp] at hp hv hu
    exact (process_file_spec validate pipeline unlink auto_delete dur t).2.2.2.1
        out msg hv hp had hu

/-- Witness for the amended C2: the caught-pipeline-fault clause at a
concrete failing one-task run, and the caught-unlink clause at a
concrete successfully-processed run whose auto-delete raises. -/
theorem worker_survives_all_faults_witness :
    ((process_file validateOK pipelineRaisesIO unlinkOK false durTwo
        ⟨"bad.mp3", "high", 0, "queued"⟩).success = false
      ∧ (process_file validateOK pipelineRaisesIO unlinkOK false durTwo
        ⟨"bad.mp3", "high", 0, "queued"⟩).errors = ["file disappeared"])
    ∧ ((process_file validateOK pipelineOk unlinkRaises true durTwo
        ⟨"del.mp3", "high", 0, "queued"⟩).success = true
      ∧ (process_file validateOK pipelineOk unlinkRaises true durTwo
        ⟨"del.mp3", "high", 0, "queued"⟩).errors = ["unlink failed"]) := by
  constructor
  · have h := worker_survives_all_faults validateOK pipelineRaisesIO unlinkOK false
        durTwo (emptyQueue.enqueue ⟨"bad.mp3", "high", 0, "queued"⟩ 0) zeroStats
    exact h.2.2.1 (process_file validateOK pipelineRaisesIO unlinkOK false durTwo
        ⟨"bad.mp3", "high", 0, "queued"⟩) (by decide) "file disappeared" rfl rfl
  · have h := worker_survives_all_faults validateOK pipelineOk unlinkRaises true
        durTwo (emptyQueue.enqueue ⟨"del.mp3", "high", 0, "queued"⟩ 0) zeroStats
    exact h.2.2.2 (process_file validateOK pipelineOk unlinkRaises true durTwo
        ⟨"del.mp3", "high", 0, "queued"⟩) (by decide) "processed_del.mp3"
        "unlink failed" rfl rfl rfl rfl

/-- C7 counterexample: a task whose processing fails with a transient
I/O error ("file disappeared" raised by the load step) is NOT
re-enqueued: the run records exactly one failed attempt and ends with an
empty queue, and the task dictionary carries no attempt counter at all —
contradicting the claimed retry-once-at-same-priority policy. -/
theorem io_failure_not_retried :
    worker_run validateOK pipelineRaisesIO unlinkOK false durTwo
        (emptyQueue.enqueue ⟨"gone.mp3", "medium", 0, "queued"⟩ 1) zeroStats
      = ([⟨"gone.mp3", false, ["file disappeared"], 2, none, false⟩],
         ⟨1, 1, 2⟩, ⟨[], 1⟩) := by
  norm_num [worker_run, worker_runAux, ProcessingQueue.dequeue, selectMin,
    ProcessingQueue.enqueue, emptyQueue, process_file, process_file_try,
    validateOK, pipelineRaisesIO, unlinkOK, durTwo, update_stats, zeroStats]

/-- C7 amended: the worker loop never retries anything — every enqueued
task is dequeued and processed exactly once (one result per entry) and
the final queue is empty: no failed task, I/O or otherwise, is ever
re-enqueued. -/
theorem no_task_ever_retried (validate : String → Bool × String)
    (pipeline : String → Except String String)
    (unlink : String → Except String Unit) (auto_delete : Bool)
    (dur : String → ℚ)
    (q : ProcessingQueue) (st : Stats) :
    (worker_run validate pipeline unlink auto_delete dur q st).2.2.entries = []
    ∧ (worker_run validate pipeline unlink auto_delete dur q st).1.length = q.entries.length := by
  obtain ⟨hl, hq, _, _, _, _⟩ :=
    worker_runAux_spec validate pipeline unlink auto_delete dur q.entries.length q st le_rfl
  exact ⟨hq, hl⟩

/-- C8 counterexample: on an empty queue, `dequeue` returns the Empty
result (`none`) immediately — it takes no timeout and cannot block —
and the worker loop reacts by executing `time.sleep(0.5)` and retrying
(`IterOutcome.slept`), i.e. it busy-polls, contrary to the claimed
block-up-to-timeout dequeue. -/
theorem empty_dequeue_immediate_sleep :
    ProcessingQueue.dequeue emptyQueue = (none, emptyQueue)
    ∧ worker_iteration validateOK pipelineRaisesIO unlinkOK false durTwo emptyQueue zeroStats
        = (IterOutcome.slept, zeroStats, emptyQueue) :=
  ⟨rfl, rfl⟩

/-- C8 amended: `dequeue` is non-blocking — on an empty queue it returns
`none` at once and the worker iteration degenerates to a 0.5-second
sleep followed by another poll, while on a non-empty queue it returns
the minimal task, which the iteration processes. -/
theorem dequeue_nonblocking_behavior (validate : String → Bool × String)
    (pipeline : String → Except String String)
    (unlink : String → Except String Unit) (auto_delete : Bool)
    (dur : String → ℚ)
    (q : ProcessingQueue) (st : Stats) :
    (q.entries = [] →
        q.dequeue = (none, q)
        ∧ worker_iteration validate pipeline unlink auto_delete dur q st = (.slept, st, q))
    ∧ (q.entries ≠ [] → ∃ m rest, selectMin q.entries = some (m, rest)
        ∧ q.dequeue = (some m.2.2, ⟨rest, q.task_id⟩)
        ∧ worker_iteration validate pipeline unlink auto_delete dur q st
            = (.processed (process_file validate pipeline unlink auto_delete dur m.2.2),
               update_stats st (process_file validate pipeline unlink auto_delete dur m.2.2),
               ⟨rest, q.task_id⟩)) := by
  constructor
  · intro h
    have hsel : selectMin q.entries = none := by rw [h]; rfl
    have hd : q.dequeue = (none, q) := dequeue_of_selectMin_none hsel
    exact ⟨hd, by simp [worker_iteration, hd]⟩
  · intro h
    cases hsel : selectMin q.entries with
    | none => exact absurd (selectMin_eq_none.mp hsel) h
    | some p =>
      obtain ⟨m, rest⟩ := p
      have hd := dequeue_of_selectMin_some hsel
      exact ⟨m, rest, rfl, hd, by simp [worker_iteration, hd]⟩

/-- Witness for the amended C8 at the concrete empty queue. -/
theorem dequeue_nonblocking_behavior_witness :
    ProcessingQueue.dequeue emptyQueue = (none, emptyQueue)
    ∧ worker_iteration validateOK pipelineRaisesIO unlinkOK false durTwo emptyQueue zeroStats
        = (IterOutcome.slept, zeroStats, emptyQueue) :=
  (dequeue_nonblocking_behavior validateOK pipelineRaisesIO unlinkOK false durTwo
    emptyQueue zeroStats).1 rfl

/-- C9: per completed task `processed_files` grows by exactly 1
regardless of success and `failed_files` grows by 1 exactly when the
result was unsuccessful; over any drained run from the initial zero
statistics, `processed_files` counts all results (failed ones
included), `failed_files` counts exactly the unsuccessful ones — so
`failed_files ≤ processed_files` — and the reported
`avg_processing_time` is the total recorded processing time divided by
that inclusive count, `0` when no task has completed. -/
theorem stats_counters_consistent (validate : String → Bool × String)
    (pipeline : String → Except String String)
    (unlink : String → Except String Unit) (auto_delete : Bool)
    (dur : String → ℚ)
    (q : ProcessingQueue) :
    (∀ (st : Stats) (r : PResult),
        (update_stats st r).processed_files = st.processed_files + 1)
    ∧ (∀ (st : Stats) (r : PResult), (update_stats st r).failed_files
        = if r.success then st.failed_files else st.failed_files + 1)
    ∧ (worker_run validate pipeline unlink auto_delete dur q zeroStats).2.1.processed_files
        = (worker_run validate pipeline unlink auto_delete dur q zeroStats).1.length
    ∧ (worker_run validate pipeline unlink auto_delete dur q zeroStats).2.1.failed_files
        = ((worker_run validate pipeline unlink auto_delete dur q zeroStats).1.filter
            (fun r => !r.success)).length
    ∧ (worker_run validate pipeline unlink auto_delete dur q zeroStats).2.1.failed_files
        ≤ (worker_run validate pipeline unlink auto_delete dur q zeroStats).2.1.processed_files
    ∧ avg_processing_time (worker_run validate pipeline unlink auto_delete dur q zeroStats).2.1
        = if 0 < (worker_run validate pipeline unlink auto_delete dur q zeroStats).1.length
          then ((worker_run validate pipeline unlink auto_delete dur q zeroStats).1.map
              (fun r => r.processing_time)).sum
            / ((worker_run validate pipeline unlink auto_delete dur q zeroStats).1.length : ℚ)
          else 0 := by
  obtain ⟨hl, hq, hr, hp, hf, ht⟩ :=
    worker_runAux_spec validate pipeline unlink auto_delete dur q.entries.length q zeroStats le_rfl
  have hp₀ : (worker_run validate pipeline unlink auto_delete dur q zeroStats).2.1.processed_files
      = (worker_run validate pipeline unlink auto_delete dur q zeroStats).1.length := by
    simpa [zeroStats] using hp
  have hf₀ : (worker_run validate pipeline unlink auto_delete dur q zeroStats).2.1.failed_files
      = ((worker_run validate pipeline unlink auto_delete dur q zeroStats).1.filter
          (fun r => !r.success)).length := by
    simpa [zeroStats] using hf
  have ht₀ : (worker_run validate pipeline unlink auto_delete dur q zeroStats).2.1.total_processing_time
      = ((worker_run validate pipeline unlink auto_delete dur q zeroStats).1.map
          (fun r => r.processing_time)).sum := by
    simpa [zeroStats] using ht
  refine ⟨fun st r => rfl, ?_, hp₀, hf₀, ?_, ?_⟩
  · intro st r
    cases hrs : r.success <;> simp [update_stats, hrs]
  · rw [hp₀, hf₀]
    exact List.length_filter_le _ _
  · simp only [avg_processing_time, hp₀, ht₀, gt_iff_lt]

/-- C3: whenever the queue size equals `max_queue_size`, `enqueue_file`
returns `accepted = false` and leaves the processor — queue contents,
size and counter — unchanged; and in the concrete scenario with
`max_queue_size = 2`, enqueuing (A, medium), (B, medium), (C, high)
accepts A and B, rejects C, leaves the post-C state identical to the
post-B state, and the queue holds exactly A and B. -/
theorem enqueue_rejects_when_full :
    (∀ (p : Processor) (fp pr : String) (now : Int),
        p.queue.size = p.max_queue_size → p.enqueue_file fp pr now = (false, p))
    ∧ ((⟨emptyQueue, 2⟩ : Processor).enqueue_file "A" "medium" 0).1 = true
    ∧ (((⟨emptyQueue, 2⟩ : Processor).enqueue_file "A" "medium" 0).2.enqueue_file
        "B" "medium" 1).1 = true
    ∧ ((((⟨emptyQueue, 2⟩ : Processor).enqueue_file "A" "medium" 0).2.enqueue_file
        "B" "medium" 1).2.enqueue_file "C" "high" 2).1 = false
    ∧ ((((⟨emptyQueue, 2⟩ : Processor).enqueue_file "A" "medium" 0).2.enqueue_file
        "B" "medium" 1).2.enqueue_file "C" "high" 2).2
      = (((⟨emptyQueue, 2⟩ : Processor).enqueue_file "A" "medium" 0).2.enqueue_file
        "B" "medium" 1).2
    ∧ (((⟨emptyQueue, 2⟩ : Processor).enqueue_file "A" "medium" 0).2.enqueue_file
        "B" "medium" 1).2.queue.entries
      = [(1, 1, ⟨"A", "medium", 0, "queued"⟩), (1, 2, ⟨"B", "medium", 1, "queued"⟩)] := by
  refine ⟨?_, by decide, by decide, by decide, by decide, by decide⟩
  intro p fp pr now h
  simp [Processor.enqueue_file, h]

/-- Witness for C3 at a concrete full queue (capacity zero). -/
theorem enqueue_rejects_when_full_witness :
    Processor.enqueue_file ⟨emptyQueue, 0⟩ "f.mp3" "high" 0 = (false, ⟨emptyQueue, 0⟩) :=
  enqueue_rejects_when_full.1 ⟨emptyQueue, 0⟩ "f.mp3" "high" 0 rfl

/-- C10: any priority string whose lower-casing is none of "high",
"medium", "low" is silently mapped to numeric priority 1 — so such a
task is enqueued with exactly the same ordering key computation as a
medium-priority task — the mapping only depends on the lower-cased
string (case-insensitive acceptance), and the three known names are
recognized in any letter case. -/
theorem unknown_priority_maps_to_medium :
    (∀ s : String, strLower s ≠ "high" → strLower s ≠ "medium" → strLower s ≠ "low" →
        priorityValue s = 1)
    ∧ priorityValue "medium" = 1
    ∧ (∀ (q : ProcessingQueue) (t : Task) (s : String),
        strLower s ≠ "high" → strLower s ≠ "medium" → strLower s ≠ "low" →
        q.enqueue t (priorityValue s) = q.enqueue t (priorityValue "medium"))
    ∧ (∀ s u : String, strLower s = strLower u → priorityValue s = priorityValue u)
    ∧ priorityValue "HIGH" = 0 ∧ priorityValue "MeDiUm" = 1 ∧ priorityValue "LOW" = 2 := by
  have hunk : ∀ s : String, strLower s ≠ "high" → strLower s ≠ "medium" →
      strLower s ≠ "low" → priorityValue s = 1 := by
    intro s h₁ h₂ h₃
    simp [priorityValue, h₁, h₂, h₃]
  have hm : priorityValue "medium" = 1 := by decide
  refine ⟨hunk, hm, ?_, ?_, by decide, by decide, by decide⟩
  · intro q t s h₁ h₂ h₃
    rw [hunk s h₁ h₂ h₃, hm]
  · intro s u h
    simp [priorityValue, h]

/-- Witness for C10 at the unrecognized priority string "urgent". -/
theorem unknown_priority_maps_to_medium_witness : priorityValue "urgent" = 1 :=
  unknown_priority_maps_to_medium.1 "urgent" (by decide) (by decide) (by decide)

/-- C4 counterexample: from a fresh system (capacity 100, every file
valid), two Created events for the same path "a.mp3" with no processing
in between are BOTH admitted: afterwards the queue simultaneously holds
two queued tasks for that path, so the at-most-one-in-flight-per-path
invariant fails.  `_should_process` consults only the `processed_files`
set of already-completed paths; no queued/processing state is tracked. -/
theorem duplicate_inflight_possible :
    (on_created validateOK 1
        (on_created validateOK 0 ⟨emptyHandler, ⟨emptyQueue, 100⟩⟩ "a.mp3")
        "a.mp3").proc.queue.entries
      = [(0, 1, ⟨"a.mp3", "high", 0, "queued"⟩),
         (0, 2, ⟨"a.mp3", "high", 1, "queued"⟩)] := by
  decide

/-- C4 amended: the only per-path duplicate suppression the handler
provides is the session `processed_files` set — for a path already
marked processed, both Created and Modified events are refused and the
whole system state is unchanged; paths that have never completed
processing are not protected against duplicate in-flight tasks. -/
theorem processed_paths_never_reenqueued (validate : String → Bool × String)
    (now : Int) (s : WatchSystem) (path : String)
    (h : s.handler.processed_files.contains path = true) :
    on_created validate now s path = s ∧ on_modified validate now s path = s := by
  have hsp : s.handler.should_process validate path = false := by
    simp only [Handler.should_process]
    rw [if_pos h]
  exact ⟨by simp [on_created, hsp], by simp [on_modified, hsp]⟩

/-- Witness for the amended C4: a system that already processed "x.mp3"
refuses both event kinds for it. -/
theorem processed_paths_never_reenqueued_witness :
    on_created validateOK 5 ⟨⟨["x.mp3"], []⟩, ⟨emptyQueue, 100⟩⟩ "x.mp3"
      = ⟨⟨["x.mp3"], []⟩, ⟨emptyQueue, 100⟩⟩
    ∧ on_modified validateOK 5 ⟨⟨["x.mp3"], []⟩, ⟨emptyQueue, 100⟩⟩ "x.mp3"
      = ⟨⟨["x.mp3"], []⟩, ⟨emptyQueue, 100⟩⟩ :=
  processed_paths_never_reenqueued validateOK 5
    ⟨⟨["x.mp3"], []⟩, ⟨emptyQueue, 100⟩⟩ "x.mp3" (by decide)

/-- C5, evaluated at the spec's own scenario: path "x.mp3" is processed
at t=0 (`mark_processed`, exactly what `process_file` performs on
completion).  A Modified event at t=30 is rejected, as the claim states;
but a Modified event at t=65 — strictly more than the 60-second cooldown
after `lastProcessedAt`, which the claim says must be admitted at medium
priority — is ALSO rejected with nothing enqueued, because
`_should_process` consults the permanent session set `processed_files`
before the cooldown test is ever reached.  The last conjunct confirms
the cooldown itself had already elapsed at t=65, so the rejection is due
solely to the session set, leaving the 60-second re-admission logic
unreachable for any processed path. -/
theorem modified_after_cooldown_still_rejected :
    on_modified validateOK 30
        ⟨emptyHandler.mark_processed "x.mp3" 0, ⟨emptyQueue, 100⟩⟩ "x.mp3"
      = ⟨emptyHandler.mark_processed "x.mp3" 0, ⟨emptyQueue, 100⟩⟩
    ∧ on_modified validateOK 65
        ⟨emptyHandler.mark_processed "x.mp3" 0, ⟨emptyQueue, 100⟩⟩ "x.mp3"
      = ⟨emptyHandler.mark_processed "x.mp3" 0, ⟨emptyQueue, 100⟩⟩
    ∧ 65 - (emptyHandler.mark_processed "x.mp3" 0).lastProcessedAt "x.mp3" > 60 := by
  refine ⟨by decide, by decide, by decide⟩

/-- C6 counterexample: a Created event for the valid path "x.mp3" that
was processed earlier in the session is rejected — nothing is enqueued —
contradicting "always admitted and enqueued at high priority regardless
of prior processing history". -/
theorem created_rejected_for_processed_path :
    on_created validateOK 65
        ⟨emptyHandler.mark_processed "x.mp3" 0, ⟨emptyQueue, 100⟩⟩ "x.mp3"
      = ⟨emptyHandler.mark_processed "x.mp3" 0, ⟨emptyQueue, 100⟩⟩ := by
  decide

/-- C6 amended: a Created event for a valid, supported path that has not
been processed in this session is admitted and enqueued at high priority
(numeric 0) regardless of the path's `last_processed` timestamp — no
cooldown test is consulted on the Created code path — provided the queue
is below capacity; the handler state is untouched. -/
theorem created_admits_unprocessed_path_high (validate : String → Bool × String)
    (now : Int) (s : WatchSystem) (path : String)
    (h₁ : s.handler.processed_files.contains path = false)
    (h₂ : supported_exts.contains (strLower (pathSuffix path)) = true)
    (h₃ : (validate path).1 = true)
    (h₄ : s.proc.queue.size < s.proc.max_queue_size) :
    (on_created validate now s path).proc.queue.entries
      = s.proc.queue.entries
        ++ [(0, s.proc.queue.task_id + 1, ⟨path, "high", now, "queued"⟩)]
    ∧ (on_created validate now s path).handler = s.handler := by
  have hsp : s.handler.should_process validate path = true := by
    simp only [Handler.should_process]
    rw [if_neg (by rw [h₁]; simp), if_neg (by rw [h₂]; simp), if_neg (by rw [h₃]; simp)]
  have hv : priorityValue "high" = 0 := by decide
  have hfull : ¬ (s.proc.queue.size ≥ s.proc.max_queue_size) := not_le.mpr h₄
  constructor
  · simp [on_created, hsp, Processor.enqueue_file, hfull, ProcessingQueue.enqueue, hv]
  · simp [on_created, hsp, Processor.enqueue_file, hfull]

/-- Witness for the amended C6: a fresh system admits a Created event for
"b.mp3" at numeric priority 0. -/
theorem created_admits_unprocessed_path_high_witness :
    (on_created validateOK 7 ⟨emptyHandler, ⟨emptyQueue, 100⟩⟩ "b.mp3").proc.queue.entries
      = [(0, 1, ⟨"b.mp3", "high", 7, "queued"⟩)]
    ∧ (on_created validateOK 7 ⟨emptyHandler, ⟨emptyQueue, 100⟩⟩ "b.mp3").handler
      = emptyHandler := by
  have h := created_admits_unprocessed_path_high validateOK 7
      ⟨emptyHandler, ⟨emptyQueue, 100⟩⟩ "b.mp3" (by decide) (by decide) (by decide)
      (by decide)
  simpa [emptyQueue] using h

end WatchFolder
